import Mathlib

/-!
Verification of the project-total extraction logic of `src/app.py`
(`extract_project_totals`, `dataframe_to_excel_bytes`, `df_for_gpt`).

The Python code is shallowly embedded: spreadsheet cells become a tagged
variant `Cell`, a parsed sheet is a `List (List Cell)`, and the extraction
loop, the `TOTAL_FOR_RE` regex match and the `pd.to_numeric(·, errors="coerce")`
coercion become executable Lean functions.  Numbers are modelled as `ℚ`.
-/

namespace App

attribute [local semireducible] Rat.mul Rat.add Rat.inv Rat.sub Rat.ofScientific

/-- The characters Python's `str.strip` and the `re` class `\s` treat as
whitespace (they agree; verified over the Basic Multilingual Plane). -/
def pySpaceChars : List Char :=
  [' ', '\t', '\n', '\r', '\x0b', '\x0c',
   '\x1c', '\x1d', '\x1e', '\x1f', '\x85', '\xa0',
   ' ', ' ', ' ', ' ', ' ', ' ', ' ', ' ', ' ', ' ', ' ', ' ', ' ', ' ', ' ', ' ', '　']

/-- Membership test in `pySpaceChars`. -/
def isPySpace (c : Char) : Bool :=
  pySpaceChars.contains c

/-- Python `str.strip()`: remove leading and trailing whitespace. -/
def pyStrip (cs : List Char) : List Char :=
  ((cs.dropWhile isPySpace).reverse.dropWhile isPySpace).reverse

/-- A spreadsheet cell as handed to `extract_project_totals` by
`pd.read_excel(..., header=None)`: a text value (`str`), a numeric value
(`int`/`float`, modelled as `ℚ`), a blank (`None`/`NaN`), or a boolean. -/
inductive Cell where
  | text (s : String)
  | num (q : ℚ)
  | blank
  | boolean (b : Bool)
deriving DecidableEq, Repr

/-- One output record of the extractor: a row of the result frame
`{"Project Name": ..., "Total Amount": ...}` after numeric normalization;
`none` is pandas `NaN` (the spec's "absent"). -/
structure ProjectTotal where
  projectName : String
  totalAmount : Option ℚ
deriving DecidableEq, Repr

/-- Embedding of `TOTAL_FOR_RE.match` for
`TOTAL_FOR_RE = re.compile(r"^\s*Total for\s*(.*)\s*$", re.IGNORECASE)`
together with the subsequent `(m.group(1) or "").strip()` (app.py lines 21,
37-39), returning the stripped captured remainder on a match.

Python regex backtracking on this particular pattern resolves to: the literal
`Total for` (ASCII-case-insensitively) must follow the maximal leading
whitespace run, and the rest of the string matches `\s*(.*)\s*$` iff its
whitespace-stripped core contains no newline (`.` does not match `\n`; the
final `$` may sit before one trailing newline, which the preceding `\s*`
subsumes).  Whatever split backtracking picks, `group(1).strip()` equals that
stripped core. -/
def totalForCore (cs : List Char) : Option (List Char) :=
  if ((cs.dropWhile isPySpace).take 9).map Char.toLower = String.toList "total for" then
    if (pyStrip ((cs.dropWhile isPySpace).drop 9)).contains '\n' then none
    else some (pyStrip ((cs.dropWhile isPySpace).drop 9))
  else none

/-- String-level wrapper of `totalForCore`. -/
def totalForMatch (s : String) : Option String :=
  (totalForCore s.toList).map String.mk

/-- Value of a digit string, most significant first. -/
def digitsToNat (cs : List Char) : ℕ :=
  cs.foldl (fun n c => 10 * n + (c.toNat - 48)) 0

/-- Sign of a numeric literal: `-1` for a leading minus, else `1`. -/
def sgnOf (cs : List Char) : ℚ :=
  match cs with
  | c :: _ => if c = '-' then -1 else 1
  | [] => 1

/-- Sign of an exponent, as an integer. -/
def intSgnOf (cs : List Char) : Int :=
  match cs with
  | c :: _ => if c = '-' then -1 else 1
  | [] => 1

/-- Remove one optional leading sign character. -/
def dropSign (cs : List Char) : List Char :=
  match cs with
  | c :: r => if c = '+' ∨ c = '-' then r else c :: r
  | [] => []

/-- Fractional digits of a numeric literal: the digit run right after a
leading decimal point, else empty. -/
def fracDigits (cs : List Char) : List Char :=
  match cs with
  | c :: r => if c = '.' then r.takeWhile Char.isDigit else []
  | [] => []

/-- What remains after the optional decimal point and its digit run. -/
def afterFrac (cs : List Char) : List Char :=
  match cs with
  | c :: r => if c = '.' then r.dropWhile Char.isDigit else c :: r
  | [] => []

/-- Exponent part of a numeric literal: either absent (no `e`/`E` follows, the
input is returned untouched), or `e`/`E`, an optional sign and a nonempty run
of digits; `e`/`E` without digits is a parse failure. -/
def parseExpPart (cs : List Char) : Option (Int × List Char) :=
  match cs with
  | [] => some (0, [])
  | c :: rest =>
    if c = 'e' ∨ c = 'E' then
      if (dropSign rest).takeWhile Char.isDigit = [] then none
      else some (intSgnOf rest * (digitsToNat ((dropSign rest).takeWhile Char.isDigit) : Int),
        (dropSign rest).dropWhile Char.isDigit)
    else some (0, c :: rest)

/-- Embedding of `pd.to_numeric(·, errors="coerce")` applied to a text cell
(app.py line 47): parse a finite decimal literal — optional surrounding
whitespace, optional sign, digits with an optional decimal point (at least one
digit overall) and an optional `e`/`E` exponent — and return `none` (pandas
`NaN`) when the text is not such a literal.  A digit-grouping comma, an empty
or blank string, or any stray character makes the whole parse fail.  (IEEE
specials such as `"inf"`, which coerce to non-finite floats rather than to
`NaN`, are outside this model; no claim involves them.)

The stages below feed `pyParseNum`; `intDigits` is the integer digit run of
the stripped, unsigned literal. -/
def intDigits (s : String) : List Char :=
  (dropSign (pyStrip s.toList)).takeWhile Char.isDigit

/-- What follows the integer digits of the stripped, unsigned literal. -/
def afterInt (s : String) : List Char :=
  (dropSign (pyStrip s.toList)).dropWhile Char.isDigit

/-- Parsed value of the literal: sign times mantissa times power of ten. -/
def numValue (s : String) (e : Int) : ℚ :=
  sgnOf (pyStrip s.toList) *
    ((digitsToNat (intDigits s) : ℚ) +
      (digitsToNat (fracDigits (afterInt s)) : ℚ) / (10 : ℚ) ^ (fracDigits (afterInt s)).length) *
    (10 : ℚ) ^ e

def pyParseNum (s : String) : Option ℚ :=
  if intDigits s = [] ∧ fracDigits (afterInt s) = [] then none
  else
    match parseExpPart (afterFrac (afterInt s)) with
    | none => none
    | some (e, rest) => if rest = [] then some (numValue s e) else none

/-- Elementwise behaviour of the column normalization
`pd.to_numeric(out["Total Amount"], errors="coerce")` (app.py line 47):
numbers pass through, text is parsed by `pyParseNum`, a blank (`None`/`NaN`)
coerces to `NaN`, and a boolean coerces to 1/0. -/
def cellToNumeric : Cell → Option ℚ
  | Cell.num q => some q
  | Cell.text s => pyParseNum s
  | Cell.blank => none
  | Cell.boolean b => some (if b then 1 else 0)

/-- The normalized amount a row contributes:
`row.iloc[6] if len(row) > 6 else None` (app.py line 40) followed by the
numeric coercion; a missing seventh column behaves like `None`. -/
def amountOf (row : List Cell) : Option ℚ :=
  (row[6]?).bind cellToNumeric

/-- The per-row body of the extraction loop (app.py lines 35-41): the row
yields a record iff its first cell is a text value matching `TOTAL_FOR_RE`. -/
def processRow (row : List Cell) : Option ProjectTotal :=
  match row[0]? with
  | some (Cell.text s) =>
    match totalForMatch s with
    | some name => some ⟨name, amountOf row⟩
    | none => none
  | _ => none

/-- The `rows = []; for _, row in df.iterrows(): ... rows.append(...)` loop of
app.py lines 33-41, with the accumulated list made explicit. -/
def extractLoop : List ProjectTotal → List (List Cell) → List ProjectTotal
  | acc, [] => acc
  | acc, row :: rest =>
    match processRow row with
    | some p => extractLoop (acc ++ [p]) rest
    | none => extractLoop acc rest

/-- `extract_project_totals` (app.py lines 23-49) applied to an already-parsed
sheet: run the loop from an empty accumulator.  (The trailing
`if not out.empty` numeric normalization is folded into `amountOf`, which is
elementwise equivalent and a no-op on an empty result.) -/
def extract_project_totals (table : List (List Cell)) : List ProjectTotal :=
  extractLoop [] table

/-- Outcome of one full invocation: either the input bytes fail to parse as a
workbook (`pd.read_excel` raises — the single "unreadable input" error kind)
or extraction returns a record list. -/
inductive ExtractResult where
  | unreadable : ExtractResult
  | ok : List ProjectTotal → ExtractResult
deriving DecidableEq, Repr

/-- The whole of `extract_project_totals` including the `pd.read_excel` call
(app.py line 31): the external parse either fails (`none`) or produces a
table, and extraction itself never fails. -/
def run_extract : Option (List (List Cell)) → ExtractResult
  | none => ExtractResult.unreadable
  | some t => ExtractResult.ok (extract_project_totals t)

/-- Sort key used by `sort_values("Total Amount", ascending=False)`; it is
only ever applied after `dropna`, so every record has a numeric amount and the
default is never observed. -/
def amountKey (p : ProjectTotal) : ℚ :=
  p.totalAmount.getD 0

/-- Insert a record into a list kept sorted by descending amount. -/
def insertDesc (p : ProjectTotal) : List ProjectTotal → List ProjectTotal
  | [] => [p]
  | q :: rest =>
    if amountKey q ≤ amountKey p then p :: q :: rest else q :: insertDesc p rest

/-- Sort records by descending amount (insertion sort).  pandas's
`sort_values` uses an unstable quicksort; the relative order of equal amounts
is unspecified there, and no claim depends on it. -/
def sortDescAmount : List ProjectTotal → List ProjectTotal
  | [] => []
  | p :: rest => insertDesc p (sortDescAmount rest)

/-- The view forwarded to the summarization step (app.py lines 152-153):
`summary_df.dropna(subset=["Total Amount"])`, then
`.sort_values("Total Amount", ascending=False).head(int(top_n))`. -/
def df_for_gpt (records : List ProjectTotal) (top_n : ℕ) : List ProjectTotal :=
  (sortDescAmount (records.filter fun p => p.totalAmount.isSome)).take top_n

/-- Sheet written by `dataframe_to_excel_bytes` (app.py lines 52-56):
`to_excel(..., index=False)` emits one header row holding the column labels
`"Project Name"` and `"Total Amount"`, then one row per record, with pandas
`NaN` amounts written as blank cells. -/
def dataframe_to_excel_sheet (records : List ProjectTotal) : List (List Cell) :=
  [Cell.text "Project Name", Cell.text "Total Amount"] ::
    records.map fun r =>
      [Cell.text r.projectName,
       match r.totalAmount with | some q => Cell.num q | none => Cell.blank]

/-- Modelled from the spec: no code in `src/` re-reads the produced file; the
reader half of the §8 "Round trip" property (the external pandas/openpyxl
reader applied to the two-column output file) is modelled from §6's output
boundary — skip the header row, read column 0 as the project name and column
1 as the amount, re-applying the numeric coercion with blank ↦ absent. -/
def read_back_records : List (List Cell) → List ProjectTotal
  | [] => []
  | _header :: rows =>
    rows.map fun row =>
      { projectName := match row[0]? with | some (Cell.text s) => s | _ => ""
        totalAmount := (row[1]?).bind cellToNumeric }

/-- The extractor's cross-call state.  `extract_project_totals` reads nothing
but its argument and the immutable module constant `TOTAL_FOR_RE`; there is no
mutable module state, so the state type is trivial. -/
def ExtractorState : Type := Unit

/-- One invocation of the extractor as a state transition: the state is passed
through unchanged and the result is computed from the input alone. -/
def callExtract (s : ExtractorState) (input : Option (List (List Cell))) :
    ExtractorState × ExtractResult :=
  (s, run_extract input)

/-- The label pattern as the spec words it (§4.1 steps 3 and 5): optional
leading whitespace, the literal text "Total for" case-insensitively, then any
remaining text (possibly empty), then optional trailing whitespace, anchored
at both ends; `name` is the remainder with surrounding whitespace stripped.
(The trailing-whitespace run is absorbed into `rem`: stripping makes the two
phrasings agree.  Case-insensitivity is `Char.toLower`, which coincides with
Python's `re.IGNORECASE` folding on the nine characters of the literal.)
This definition follows the SPEC's words; `totalForMatch` follows the code,
and the two are compared in the claim-C1 theorems. -/
def specPatternMatch (s name : String) : Prop :=
  ∃ w1 lit rem : List Char,
    s.toList = w1 ++ lit ++ rem ∧
    (∀ c ∈ w1, isPySpace c = true) ∧
    lit.map Char.toLower = String.toList "total for" ∧
    name = String.mk (pyStrip rem)

/-! ## Structural lemmas about the extraction loop -/

theorem extractLoop_append_acc (t : List (List Cell)) :
    ∀ acc : List ProjectTotal, extractLoop acc t = acc ++ extractLoop [] t := by
  induction t with
  | nil => intro acc; simp [extractLoop]
  | cons row rest ih =>
    intro acc
    cases hp : processRow row with
    | none =>
      simp only [extractLoop, hp]
      exact ih acc
    | some p =>
      simp only [extractLoop, hp, List.nil_append]
      rw [ih (acc ++ [p]), ih [p], List.append_assoc]

theorem extract_eq_filterMap (t : List (List Cell)) :
    extract_project_totals t = t.filterMap processRow := by
  induction t with
  | nil => rfl
  | cons row rest ih =>
    unfold extract_project_totals at ih ⊢
    cases hp : processRow row with
    | none => simp only [extractLoop, hp, List.filterMap_cons]; exact ih
    | some p =>
      simp only [extractLoop, hp, List.filterMap_cons]
      rw [extractLoop_append_acc, ih]
      simp

theorem extract_append (a b : List (List Cell)) :
    extract_project_totals (a ++ b) =
      extract_project_totals a ++ extract_project_totals b := by
  simp [extract_eq_filterMap, List.filterMap_append]

theorem extract_cons_middle (a : List (List Cell)) (row : List Cell) (b : List (List Cell)) :
    extract_project_totals (a ++ row :: b) =
      extract_project_totals a ++ (processRow row).toList ++ extract_project_totals b := by
  simp only [extract_eq_filterMap, List.filterMap_append, List.filterMap_cons]
  cases processRow row <;> simp

theorem processRow_eq_some (row : List Cell) (s name : String)
    (h0 : row[0]? = some (Cell.text s)) (hm : totalForMatch s = some name) :
    processRow row = some ⟨name, amountOf row⟩ := by
  simp only [processRow, h0, hm]

theorem processRow_eq_none_of_nontext (row : List Cell)
    (h : ∀ s : String, row[0]? ≠ some (Cell.text s)) :
    processRow row = none := by
  unfold processRow
  cases h0 : row[0]? with
  | none => rfl
  | some c =>
    cases c with
    | text s => exact absurd h0 (h s)
    | num q => rfl
    | blank => rfl
    | boolean b => rfl

/-! ## Lemmas about the label pattern -/

theorem toLower_ne_t_of_isPySpace (c : Char) (h : isPySpace c = true) :
    Char.toLower c ≠ 't' := by
  intro ht
  have hm : c ∈ pySpaceChars := by
    simpa [isPySpace] using h
  fin_cases hm <;> exact absurd ht (by decide)

theorem dropWhile_append_of_all {p : Char → Bool} (w l : List Char)
    (hw : ∀ c ∈ w, p c = true) : (w ++ l).dropWhile p = l.dropWhile p := by
  induction w with
  | nil => rfl
  | cons c w ih =>
    have hc := hw c (List.mem_cons_self c w)
    simp only [List.cons_append, List.dropWhile_cons, hc, if_true]
    exact ih fun d hd => hw d (List.mem_cons_of_mem _ hd)

theorem mem_dropWhile_of_mem {p : Char → Bool} {c : Char} {l : List Char}
    (hm : c ∈ l) (hc : p c = false) : c ∈ l.dropWhile p := by
  induction l with
  | nil => cases hm
  | cons a l ih =>
    cases hpa : p a with
    | true =>
      simp only [List.dropWhile_cons, hpa, if_true]
      rcases List.mem_cons.mp hm with rfl | hm'
      · rw [hpa] at hc; cases hc
      · exact ih hm'
    | false =>
      simp only [List.dropWhile_cons, hpa]
      exact hm

theorem mem_pyStrip {c : Char} {l : List Char} (hm : c ∈ l)
    (hc : isPySpace c = false) : c ∈ pyStrip l := by
  unfold pyStrip
  rw [List.mem_reverse]
  exact mem_dropWhile_of_mem (List.mem_reverse.mpr (mem_dropWhile_of_mem hm hc)) hc

/-- Refinement of the spec's pattern by the code's regex: whenever the spec's
words match a label with a newline-free stripped remainder, `TOTAL_FOR_RE`
matches it with the same project name. -/
theorem totalForMatch_of_spec (s name : String) (h : specPatternMatch s name)
    (hn : name.toList.contains '\n' = false) : totalForMatch s = some name := by
  obtain ⟨w1, lit, rem, hs, hw, hlit, hname⟩ := h
  have h9 : lit.length = 9 := by
    have hl := congrArg List.length hlit
    rw [List.length_map] at hl
    exact hl.trans (by decide)
  cases lit with
  | nil => exact absurd h9 (by decide)
  | cons c lit' =>
    have hc : Char.toLower c = 't' := by
      rw [List.map_cons] at hlit
      have : String.toList "total for" = 't' :: String.toList "otal for" := by decide
      rw [this] at hlit
      exact (List.cons.injEq _ _ _ _ ▸ hlit).1
    have hcsp : isPySpace c = false := by
      cases hq : isPySpace c with
      | false => rfl
      | true => exact absurd hc (toLower_ne_t_of_isPySpace c hq)
    have hdrop : s.toList.dropWhile isPySpace = c :: (lit' ++ rem) := by
      rw [hs, List.append_assoc, dropWhile_append_of_all w1 _ hw, List.cons_append,
        List.dropWhile_cons, hcsp]
      simp
    have hsplit : c :: (lit' ++ rem) = (c :: lit') ++ rem := by simp
    have hcore : name.toList = pyStrip rem := by rw [hname]; rfl
    have hnl : (pyStrip rem).contains '\n' = false := hcore ▸ hn
    unfold totalForMatch totalForCore
    rw [hdrop, hsplit, List.take_left' h9, List.drop_left' h9, if_pos hlit, hnl]
    simp [hname]

/-! ## A comma anywhere makes the numeric coercion fail -/

theorem comma_mem_dropSign {cs : List Char} (h : ',' ∈ cs) : ',' ∈ dropSign cs := by
  cases cs with
  | nil => cases h
  | cons c r =>
    simp only [dropSign]
    by_cases hc : c = '+' ∨ c = '-'
    · rw [if_pos hc]
      rcases List.mem_cons.mp h with rfl | hr
      · exact absurd hc (by decide)
      · exact hr
    · rw [if_neg hc]
      exact h

theorem comma_mem_afterFrac {cs : List Char} (h : ',' ∈ cs) : ',' ∈ afterFrac cs := by
  cases cs with
  | nil => cases h
  | cons c r =>
    simp only [afterFrac]
    by_cases hc : c = '.'
    · rw [if_pos hc]
      rcases List.mem_cons.mp h with rfl | hr
      · exact absurd hc (by decide)
      · exact mem_dropWhile_of_mem hr (by decide)
    · rw [if_neg hc]
      exact h

theorem parseExpPart_rest_ne_nil {cs : List Char} {e : Int} {rest : List Char}
    (h : ',' ∈ cs) (hp : parseExpPart cs = some (e, rest)) : rest ≠ [] := by
  cases cs with
  | nil => cases h
  | cons c r =>
    simp only [parseExpPart] at hp
    by_cases hc : c = 'e' ∨ c = 'E'
    · rw [if_pos hc] at hp
      have hr : ',' ∈ r := by
        rcases List.mem_cons.mp h with rfl | hr
        · exact absurd hc (by decide)
        · exact hr
      have h2 : ',' ∈ (dropSign r).dropWhile Char.isDigit :=
        mem_dropWhile_of_mem (comma_mem_dropSign hr) (by decide)
      by_cases hed : (dropSign r).takeWhile Char.isDigit = []
      · rw [if_pos hed] at hp
        cases hp
      · rw [if_neg hed] at hp
        injection hp with hpair
        have hr2 : rest = (dropSign r).dropWhile Char.isDigit :=
          (congrArg Prod.snd hpair).symm
        rw [hr2]
        exact List.ne_nil_of_mem h2
    · rw [if_neg hc] at hp
      injection hp with hpair
      have hr2 : rest = c :: r := (congrArg Prod.snd hpair).symm
      rw [hr2]
      exact List.ne_nil_of_mem h

theorem pyParseNum_comma (s : String) (h : ',' ∈ s.toList) : pyParseNum s = none := by
  have h0 : ',' ∈ pyStrip s.toList := mem_pyStrip h (by decide)
  have h1 : ',' ∈ dropSign (pyStrip s.toList) := comma_mem_dropSign h0
  have h2 : ',' ∈ afterInt s :=
    mem_dropWhile_of_mem h1 (by decide)
  have h3 : ',' ∈ afterFrac (afterInt s) := comma_mem_afterFrac h2
  unfold pyParseNum
  split
  · rfl
  · cases hp : parseExpPart (afterFrac (afterInt s)) with
    | none => simp [hp]
    | some pr =>
      obtain ⟨e, rest⟩ := pr
      have hne : rest ≠ [] := parseExpPart_rest_ne_nil h3 hp
      simp [hp, hne]

/-! ## The descending sort behind the top-N view -/

theorem perm_insertDesc (p : ProjectTotal) (l : List ProjectTotal) :
    (insertDesc p l).Perm (p :: l) := by
  induction l with
  | nil => exact List.Perm.refl _
  | cons q rest ih =>
    unfold insertDesc
    by_cases hq : amountKey q ≤ amountKey p
    · rw [if_pos hq]
    · rw [if_neg hq]
      exact (ih.cons q).trans (List.Perm.swap p q rest)

theorem perm_sortDescAmount (l : List ProjectTotal) : (sortDescAmount l).Perm l := by
  induction l with
  | nil => exact List.Perm.refl _
  | cons p rest ih =>
    exact (perm_insertDesc p (sortDescAmount rest)).trans (ih.cons p)

theorem pairwise_insertDesc (p : ProjectTotal) (l : List ProjectTotal)
    (h : l.Pairwise fun a b => amountKey b ≤ amountKey a) :
    (insertDesc p l).Pairwise fun a b => amountKey b ≤ amountKey a := by
  induction l with
  | nil => simp [insertDesc]
  | cons q rest ih =>
    rw [List.pairwise_cons] at h
    obtain ⟨hq_all, hrest⟩ := h
    unfold insertDesc
    by_cases hq : amountKey q ≤ amountKey p
    · rw [if_pos hq, List.pairwise_cons]
      refine ⟨?_, ?_⟩
      · intro x hx
        rcases List.mem_cons.mp hx with rfl | hx'
        · exact hq
        · exact le_trans (hq_all x hx') hq
      · rw [List.pairwise_cons]
        exact ⟨hq_all, hrest⟩
    · rw [if_neg hq, List.pairwise_cons]
      refine ⟨?_, ih hrest⟩
      intro x hx
      have hx' : x ∈ p :: rest := (perm_insertDesc p rest).mem_iff.mp hx
      rcases List.mem_cons.mp hx' with rfl | hx''
      · exact le_of_lt (not_le.mp hq)
      · exact hq_all x hx''

theorem pairwise_sortDescAmount (l : List ProjectTotal) :
    (sortDescAmount l).Pairwise fun a b => amountKey b ≤ amountKey a := by
  induction l with
  | nil => simp [sortDescAmount]
  | cons p rest ih => exact pairwise_insertDesc p _ ih

theorem take_drop_amountKey (l : List ProjectTotal) (n : ℕ)
    (h : l.Pairwise fun a b => amountKey b ≤ amountKey a) :
    ∀ p ∈ l.take n, ∀ q ∈ l.drop n, amountKey q ≤ amountKey p := by
  have h' : (l.take n ++ l.drop n).Pairwise fun a b => amountKey b ≤ amountKey a := by
    rw [List.take_append_drop]
    exact h
  exact (List.pairwise_append.mp h').2.2

theorem extract_nil : extract_project_totals [] = [] := rfl

theorem processRow_eq_none_of_nomatch (row : List Cell) (s : String)
    (h0 : row[0]? = some (Cell.text s)) (hm : totalForMatch s = none) :
    processRow row = none := by
  simp only [processRow, h0, hm]

/-! ## The claims -/

/-- C1, counterexample: the spec's pattern — optional leading whitespace, the
literal "Total for" case-insensitively, then ANY remaining text, then optional
trailing whitespace — matches the label `"Total for A\nB"` with remainder
`"A\nB"`, yet `extract_project_totals` emits no record for such a row: the
regex's `.` does not match a newline, so `TOTAL_FOR_RE` rejects every label
whose stripped remainder spans more than one line. -/
theorem C1_counterexample :
    specPatternMatch "Total for A\nB" "A\nB" ∧
    extract_project_totals [[Cell.text "Total for A\nB"]] = [] := by
  constructor
  · refine ⟨[], String.toList "Total for", String.toList " A\nB", ?_, ?_, ?_, ?_⟩
    · decide
    · intro c hc
      cases hc
    · decide
    · decide
  · decide

/-- C1, amended: for every row whose column-0 value is a text value matching
the spec's pattern (case-insensitive "Total for" after optional leading
whitespace, then any remaining text, anchored at both ends) WHOSE STRIPPED
REMAINDER CONTAINS NO NEWLINE, extract emits a record whose project_name is
that remainder with surrounding whitespace stripped — an entirely-whitespace
or empty remainder yields the empty string, never an absent name, and interior
structure is preserved (the name is exactly the stripped remainder). -/
theorem C1_match_emits_stripped_name (s name : String) (h : specPatternMatch s name)
    (hn : name.toList.contains '\n' = false) (t₁ t₂ : List (List Cell)) (row : List Cell)
    (h0 : row[0]? = some (Cell.text s)) :
    extract_project_totals (t₁ ++ row :: t₂) =
      extract_project_totals t₁ ++ ⟨name, amountOf row⟩ :: extract_project_totals t₂ := by
  have hm := totalForMatch_of_spec s name h hn
  rw [extract_cons_middle, processRow_eq_some row s name h0 hm]
  simp

/-- Witness for C1: the label `"  TOTAL FOR   Gamma Project  "` yields the
record `⟨"Gamma Project", absent⟩`. -/
theorem C1_witness :
    extract_project_totals [[Cell.text "  TOTAL FOR   Gamma Project  "]] =
      [⟨"Gamma Project", none⟩] := by
  have h := C1_match_emits_stripped_name "  TOTAL FOR   Gamma Project  " "Gamma Project"
    ⟨String.toList "  ", String.toList "TOTAL FOR", String.toList "   Gamma Project  ",
      by decide, by decide, by decide, by decide⟩
    (by decide) [] [] [Cell.text "  TOTAL FOR   Gamma Project  "] rfl
  exact h.trans (by decide)

/-- C2: for every matching row the emitted total_amount is the coercion of the
column-6 value — numeric cells pass through (including negative values),
numeric-looking text parses to its value, and a blank, non-numeric or
malformed value, or a row with fewer than 7 columns, yields absent while the
record is still included with its project_name. -/
theorem C2_amount_is_coerced_column6 :
    (∀ (t₁ t₂ : List (List Cell)) (row : List Cell) (s name : String),
        row[0]? = some (Cell.text s) → totalForMatch s = some name →
        extract_project_totals (t₁ ++ row :: t₂) =
          extract_project_totals t₁ ++ ⟨name, amountOf row⟩ :: extract_project_totals t₂) ∧
    (∀ (row : List Cell) (q : ℚ), row[6]? = some (Cell.num q) → amountOf row = some q) ∧
    (∀ (row : List Cell) (s : String) (q : ℚ),
        row[6]? = some (Cell.text s) → pyParseNum s = some q → amountOf row = some q) ∧
    (∀ (row : List Cell) (s : String),
        row[6]? = some (Cell.text s) → pyParseNum s = none → amountOf row = none) ∧
    (∀ row : List Cell, row[6]? = some Cell.blank → amountOf row = none) ∧
    (∀ row : List Cell, row.length ≤ 6 → amountOf row = none) ∧
    pyParseNum "-300" = some (-300) ∧ pyParseNum "1250.50" = some (1250.5 : ℚ) ∧
    pyParseNum "" = none ∧ pyParseNum "n/a" = none := by
  refine ⟨?_, ?_, ?_, ?_, ?_, ?_, by decide, by decide, by decide, by decide⟩
  · intro t₁ t₂ row s name h0 hm
    rw [extract_cons_middle, processRow_eq_some row s name h0 hm]
    simp
  · intro row q h
    unfold amountOf
    rw [h]
    rfl
  · intro row s q h hp
    unfold amountOf
    rw [h]
    exact hp
  · intro row s h hp
    unfold amountOf
    rw [h]
    exact hp
  · intro row h
    unfold amountOf
    rw [h]
    rfl
  · intro row h
    unfold amountOf
    rw [List.getElem?_eq_none h]
    rfl

/-- Witness for C2: a matching row with numeric seventh cell `-300` yields the
record `⟨"Beta", -300⟩`. -/
theorem C2_witness :
    extract_project_totals
        [[Cell.text "Total for Beta", Cell.blank, Cell.blank, Cell.blank, Cell.blank, Cell.blank,
          Cell.num (-300)]] = [⟨"Beta", some (-300)⟩] := by
  have h := C2_amount_is_coerced_column6.1 [] []
    [Cell.text "Total for Beta", Cell.blank, Cell.blank, Cell.blank, Cell.blank, Cell.blank,
      Cell.num (-300)] "Total for Beta" "Beta" rfl (by decide)
  exact h.trans (by decide)

/-- C3: the output lists one record per matching row, in source-row order, with
no sorting, deduplication or aggregation — extraction is exactly a filter-map
over the rows, it distributes over concatenation, and duplicate project names
stand as separate records. -/
theorem C3_order_preserved_no_aggregation :
    (∀ t : List (List Cell), extract_project_totals t = t.filterMap processRow) ∧
    (∀ a b : List (List Cell),
        extract_project_totals (a ++ b) =
          extract_project_totals a ++ extract_project_totals b) ∧
    extract_project_totals
        [[Cell.text "Total for Acme", Cell.blank, Cell.blank, Cell.blank, Cell.blank, Cell.blank,
          Cell.num 5],
         [Cell.text "Total for Acme", Cell.blank, Cell.blank, Cell.blank, Cell.blank, Cell.blank,
          Cell.num 5]] =
      [⟨"Acme", some 5⟩, ⟨"Acme", some 5⟩] :=
  ⟨extract_eq_filterMap, extract_append, by decide⟩

/-- C4: extraction never raises for malformed or missing individual cells —
per-row anomalies degrade to a skipped row or an absent field and the loop
continues — and the whole operation surfaces exactly one error kind,
unreadable input, otherwise always returning a (possibly empty) record
list. -/
theorem C4_single_error_kind :
    run_extract none = ExtractResult.unreadable ∧
    (∀ t : List (List Cell),
        run_extract (some t) = ExtractResult.ok (extract_project_totals t)) ∧
    (∀ input : Option (List (List Cell)),
        run_extract input = ExtractResult.unreadable ↔ input = none) ∧
    (∀ (a : List (List Cell)) (row : List Cell) (b : List (List Cell)),
        extract_project_totals (a ++ row :: b) =
          extract_project_totals a ++ (processRow row).toList ++ extract_project_totals b) := by
  refine ⟨rfl, fun t => rfl, ?_, extract_cons_middle⟩
  intro input
  cases input with
  | none => simp [run_extract]
  | some t => simp [run_extract]

/-- C5: a row whose column-0 value is not a text value (a number, blank,
boolean, or missing entirely) is skipped: it produces no record, whatever its
other columns hold. -/
theorem C5_nontext_label_skipped (row : List Cell)
    (h : ∀ s : String, row[0]? ≠ some (Cell.text s)) :
    processRow row = none ∧
    ∀ a b : List (List Cell),
      extract_project_totals (a ++ row :: b) = extract_project_totals (a ++ b) := by
  have hp := processRow_eq_none_of_nontext row h
  refine ⟨hp, fun a b => ?_⟩
  rw [extract_cons_middle, hp, extract_append]
  simp

/-- Witness for C5: a row whose first cell is the number 3 is skipped even
though its seventh cell is a valid number. -/
theorem C5_witness :
    processRow [Cell.num 3, Cell.text "x", Cell.blank, Cell.blank, Cell.blank, Cell.blank,
      Cell.num 7] = none ∧
    extract_project_totals ([] ++ [Cell.num 3, Cell.text "x", Cell.blank, Cell.blank, Cell.blank,
      Cell.blank, Cell.num 7] :: []) = extract_project_totals ([] ++ []) := by
  have h := C5_nontext_label_skipped
    [Cell.num 3, Cell.text "x", Cell.blank, Cell.blank, Cell.blank, Cell.blank, Cell.num 7]
    (fun s hs => by simp at hs)
  exact ⟨h.1, h.2 [] []⟩

/-- C6: when no column-0 text value of the table matches the pattern, extract
returns the empty sequence, and the run as a whole still succeeds with an
(empty) record list rather than an error. -/
theorem C6_no_match_empty_output (t : List (List Cell))
    (h : ∀ row ∈ t, ∀ s : String, row[0]? = some (Cell.text s) → totalForMatch s = none) :
    extract_project_totals t = [] ∧ run_extract (some t) = ExtractResult.ok [] := by
  have he : extract_project_totals t = [] := by
    rw [extract_eq_filterMap]
    refine List.filterMap_eq_nil_iff.mpr fun row hrow => ?_
    cases h0 : row[0]? with
    | none => exact processRow_eq_none_of_nontext row (by simp [h0])
    | some c =>
      cases c with
      | text s => exact processRow_eq_none_of_nomatch row s h0 (h row hrow s h0)
      | num q => exact processRow_eq_none_of_nontext row (by simp [h0])
      | blank => exact processRow_eq_none_of_nontext row (by simp [h0])
      | boolean b => exact processRow_eq_none_of_nontext row (by simp [h0])
  exact ⟨he, by simp [run_extract, he]⟩

/-- Witness for C6: a table of a plain-text row, a numeric-label row and an
empty row extracts to the empty list. -/
theorem C6_witness :
    extract_project_totals [[Cell.text "Report"], [Cell.num 7, Cell.text "x"], []] = [] ∧
    run_extract (some [[Cell.text "Report"], [Cell.num 7, Cell.text "x"], []]) =
      ExtractResult.ok [] := by
  refine C6_no_match_empty_output _ fun row hrow s hs => ?_
  simp only [List.mem_cons, List.not_mem_nil, or_false] at hrow
  rcases hrow with rfl | rfl | rfl
  · simp only [List.getElem?_cons_zero, Option.some.injEq, Cell.text.injEq] at hs
    subst hs
    decide
  · simp at hs
  · simp at hs

/-- C7: before the optional summarization step, records with an absent
total_amount are dropped, and only then are the remaining records ranked by
descending amount and cut to the top N — so every forwarded record has a
numeric amount, the forwarded list is (a permutation of) a sub-list of the
numeric records, its length is min N (number of numeric records), and every
forwarded record's amount is at least every left-behind numeric record's. -/
theorem C7_top_n_after_dropna (records : List ProjectTotal) (n : ℕ) :
    (∀ p ∈ df_for_gpt records n, p.totalAmount.isSome = true) ∧
    (df_for_gpt records n).length =
      min n (records.filter fun p => p.totalAmount.isSome).length ∧
    List.Subperm (df_for_gpt records n) (records.filter fun p => p.totalAmount.isSome) ∧
    (∀ p ∈ df_for_gpt records n,
      ∀ q ∈ (sortDescAmount (records.filter fun p => p.totalAmount.isSome)).drop n,
        amountKey q ≤ amountKey p) := by
  have hperm := perm_sortDescAmount (records.filter fun p => p.totalAmount.isSome)
  refine ⟨?_, ?_, ?_, ?_⟩
  · intro p hp
    unfold df_for_gpt at hp
    exact (List.mem_filter.mp (hperm.mem_iff.mp (List.mem_of_mem_take hp))).2
  · unfold df_for_gpt
    rw [List.length_take, hperm.length_eq]
  · unfold df_for_gpt
    exact ((List.take_sublist _ _).subperm).trans hperm.subperm
  · intro p hp q hq
    unfold df_for_gpt at hp
    exact take_drop_amountKey _ n
      (pairwise_sortDescAmount (records.filter fun p => p.totalAmount.isSome)) p hp q hq

/-- Witness for C7: among `[⟨"A", 5⟩, ⟨"B", absent⟩, ⟨"C", 7⟩]` with N = 1, the
forwarded record has a numeric amount and dominates the left-behind one. -/
theorem C7_witness :
    (ProjectTotal.mk "C" (some 7)).totalAmount.isSome = true ∧
    amountKey ⟨"A", some 5⟩ ≤ amountKey ⟨"C", some 7⟩ := by
  have h := C7_top_n_after_dropna [⟨"A", some 5⟩, ⟨"B", none⟩, ⟨"C", some 7⟩] 1
  exact ⟨h.1 ⟨"C", some 7⟩ (by decide), h.2.2.2 ⟨"C", some 7⟩ (by decide) ⟨"A", some 5⟩ (by decide)⟩

/-- C8: serializing the record sequence to the two-column output sheet (header
labels "Project Name" and "Total Amount", absent written as a blank cell) and
re-reading that sheet reproduces exactly the same (project_name, total_amount)
pairs, with absent mapped back to absent and numbers preserved exactly. -/
theorem C8_round_trip (records : List ProjectTotal) :
    read_back_records (dataframe_to_excel_sheet records) = records ∧
    (dataframe_to_excel_sheet records).head? =
      some [Cell.text "Project Name", Cell.text "Total Amount"] := by
  refine ⟨?_, rfl⟩
  induction records with
  | nil => rfl
  | cons r rest ih =>
    simp only [dataframe_to_excel_sheet, read_back_records, List.map_cons] at ih ⊢
    obtain ⟨pn, ta⟩ := r
    cases ta <;> simp_all [cellToNumeric]

/-- C9: extraction is deterministic and side-effect-free — the extractor's
cross-call state is trivial and passed through unchanged, the result is a
function of the input alone, and repeated invocation (also after an earlier
call) yields identical output. -/
theorem C9_deterministic_stateless (s₁ s₂ : ExtractorState)
    (input input' : Option (List (List Cell))) :
    callExtract s₁ input = (s₁, run_extract input) ∧
    (callExtract s₁ input).2 = (callExtract s₂ input).2 ∧
    (callExtract ((callExtract s₁ input).1) input').2 = (callExtract s₁ input').2 :=
  ⟨rfl, rfl, rfl⟩

/-- C10: a matching row whose column-6 cell is text with digit-grouping commas
(e.g. "1,250.50") gets total_amount = absent — any text containing a comma
fails the numeric coercion, while the same digits without the comma parse to
the number. -/
theorem C10_comma_grouped_text_absent :
    (∀ s : String, ',' ∈ s.toList → pyParseNum s = none) ∧
    pyParseNum "1,250.50" = none ∧
    (∀ (row : List Cell) (s name : String),
        row[0]? = some (Cell.text s) → totalForMatch s = some name →
        row[6]? = some (Cell.text "1,250.50") →
        extract_project_totals [row] = [⟨name, none⟩]) ∧
    pyParseNum "1250.50" = some (1250.5 : ℚ) := by
  refine ⟨pyParseNum_comma, by decide, ?_, by decide⟩
  intro row s name h0 hm h6
  have hp := processRow_eq_some row s name h0 hm
  have ha : amountOf row = none := by
    unfold amountOf
    rw [h6]
    decide
  have he := extract_cons_middle [] row []
  rw [hp] at he
  simpa [ha, extract_nil] using he

/-- Witness for C10: a matching row whose seventh cell is the text "1,250.50"
yields the record `⟨"Beta", absent⟩`. -/
theorem C10_witness :
    extract_project_totals [[Cell.text "Total for Beta", Cell.blank, Cell.blank, Cell.blank,
      Cell.blank, Cell.blank, Cell.text "1,250.50"]] = [⟨"Beta", none⟩] :=
  C10_comma_grouped_text_absent.2.2.1
    [Cell.text "Total for Beta", Cell.blank, Cell.blank, Cell.blank, Cell.blank, Cell.blank,
      Cell.text "1,250.50"] "Total for Beta" "Beta" rfl (by decide) rfl

end App
